import Mathlib

/-!
Verification of the markdown-to-structured-document rendering engine of the
Web3 news report generator (`_02_pdf_generator.py`, class `Web3NewsPDFGenerator`).

Text is modeled as `List Char`.  Python string methods (`strip`, `lower`,
`split`, `replace`, `count`, substring membership) are embedded as executable
list functions; the `re.sub` calls of the inline formatter are embedded as
direct recursive scanners reproducing leftmost / lazy / greedy matching of the
concrete patterns appearing in the source.  Lower-casing and whitespace follow
the ASCII behaviour (the repository only feeds ASCII markers through these
paths).
-/

namespace NewsPDF

/-- ASCII whitespace, as recognised by Python `str.strip` / `\s`. -/
def pyWs (c : Char) : Bool :=
  c == ' ' || c == '\t' || c == '\n' || c == '\r' || c == '\x0b' || c == '\x0c'

/-- Python `str.lstrip()`. -/
def lstripL (l : List Char) : List Char := l.dropWhile pyWs

/-- Python `str.rstrip()`. -/
def rstripL (l : List Char) : List Char := (l.reverse.dropWhile pyWs).reverse

/-- Python `str.strip()`. -/
def stripL (l : List Char) : List Char := lstripL (rstripL l)

/-- Python `str.lower()` (ASCII). -/
def toLowerL (l : List Char) : List Char := l.map Char.toLower

/-- Python `needle in hay` substring test. -/
def containsSub (hay needle : List Char) : Bool :=
  match hay with
  | [] => needle.isPrefixOf []
  | _ :: rest => needle.isPrefixOf hay || containsSub rest needle

/-- Scanner for `hay.count(needle)`.  The fuel argument starts at the length
of the scanned list and strictly bounds the number of scanning steps, each of
which consumes at least one character, so the `0` fallback is never reached
from `countSub`. -/
def countSubGo (needle : List Char) : Nat → List Char → Nat
  | _, [] => 0
  | 0, _ => 0
  | fuel + 1, c :: rest =>
    if needle ≠ [] ∧ needle.isPrefixOf (c :: rest) then
      1 + countSubGo needle fuel ((c :: rest).drop needle.length)
    else
      countSubGo needle fuel rest

/-- Python `hay.count(needle)`: non-overlapping occurrences, scanning left to right. -/
def countSub (hay needle : List Char) : Nat := countSubGo needle hay.length hay

/-- Scanner for `s.replace(pat, rep)`; fuel as in `countSubGo`. -/
def replaceAllGo (pat rep : List Char) : Nat → List Char → List Char
  | _, [] => []
  | 0, l => l
  | fuel + 1, c :: rest =>
    if pat ≠ [] ∧ pat.isPrefixOf (c :: rest) then
      rep ++ replaceAllGo pat rep fuel ((c :: rest).drop pat.length)
    else
      c :: replaceAllGo pat rep fuel rest

/-- Python `s.replace(pat, rep)`: replace all non-overlapping occurrences left to right. -/
def replaceAll (pat rep l : List Char) : List Char := replaceAllGo pat rep l.length l

/-- Python `s.split(sep)` for a single separator character. -/
def splitOnChar (sep : Char) : List Char → List (List Char)
  | [] => [[]]
  | c :: rest =>
    match splitOnChar sep rest with
    | r :: rs => if c = sep then [] :: r :: rs else (c :: r) :: rs
    | [] => [[c]]

/-- Splits `l` at the earliest occurrence of `delim`, returning the part before
and the part after the delimiter.  Used both for the lazy `(.*?)` closing
search of the bold regexes and for Python `line.split('. ', 1)`. -/
def findCloseSplit (delim : List Char) : List Char → Option (List Char × List Char)
  | [] => none
  | c :: rest =>
    if delim.isPrefixOf (c :: rest) then
      some ([], (c :: rest).drop delim.length)
    else
      match findCloseSplit delim rest with
      | some (a, b) => some (c :: a, b)
      | none => none

/-! ### Inline formatter (`_process_bold_text`, `_process_italic_text`,
`_process_code_text` and the link rewrite of `_process_markdown_text`). -/

/-- One attempted match of `re.sub(delim + '(.*?)' + delim, '<b>\1</b>', ...)`
at the current position: if `delim` is a prefix here and a closing `delim`
occurs later (lazy: earliest), return the replacement chunk and the suffix
after the closing delimiter. -/
def tryBold (delim : List Char) (l : List Char) : Option (List Char × List Char) :=
  if delim ≠ [] ∧ delim.isPrefixOf l then
    match findCloseSplit delim (l.drop delim.length) with
    | some (content, after) => some ("<b>".data ++ content ++ "</b>".data, after)
    | none => none
  else none

/-- Scanner for the bold substitution.  The fuel argument starts at the length
of the scanned list; every step (match or single-character advance) consumes
at least one character, so the `0` fallback is never reached from `subBold`. -/
def subBoldGo (delim : List Char) : Nat → List Char → List Char
  | _, [] => []
  | 0, l => l
  | fuel + 1, c :: rest =>
    match tryBold delim (c :: rest) with
    | some (ch, after) => ch ++ subBoldGo delim fuel after
    | none => c :: subBoldGo delim fuel rest

/-- Bold rewriting for one delimiter: models
`re.sub(r'<delim>(.*?)<delim>', r'<b>\1</b>', text)` (non-overlapping,
leftmost-first, lazy content). -/
def subBold (delim : List Char) (l : List Char) : List Char :=
  subBoldGo delim l.length l

/-- `_process_bold_text`: handle `****text****`, then `**text**`, then `__text__`. -/
def processBoldText (l : List Char) : List Char :=
  subBold ['_', '_'] (subBold ['*', '*'] (subBold ['*', '*', '*', '*'] l))

/-- One attempted match of the italic pattern `(?<!m)m([^m]+)m(?!m)` at the
current position.  `prevM` records whether the character just before the
current position in the original string is the marker (the negative
lookbehind); `[^m]+` is greedy, so its match is the maximal nonempty run of
non-marker characters, which must be followed by the closing marker, itself
not followed by another marker (the negative lookahead). -/
def tryItal (m : Char) (prevM : Bool) (l : List Char) : Option (List Char × List Char) :=
  match l with
  | [] => none
  | c :: rest =>
    if c = m ∧ prevM = false then
      match rest.drop (rest.takeWhile (fun x => x ≠ m)).length with
      | m2 :: after2 =>
        if rest.takeWhile (fun x => x ≠ m) ≠ [] ∧ m2 = m ∧ after2.head? ≠ some m then
          some ("<i>".data ++ rest.takeWhile (fun x => x ≠ m) ++ "</i>".data, after2)
        else none
      | [] => none
    else none

/-- Scanner for the italic substitution; fuel as in `subBoldGo`.  After a
match the scan resumes just after the closing marker (so the lookbehind state
is `true`); after an advance the state records whether the consumed character
was the marker. -/
def subItalGo (m : Char) : Nat → Bool → List Char → List Char
  | _, _, [] => []
  | 0, _, l => l
  | fuel + 1, prevM, c :: rest =>
    match tryItal m prevM (c :: rest) with
    | some (ch, after) => ch ++ subItalGo m fuel true after
    | none => c :: subItalGo m fuel (c == m) rest

/-- Italic rewriting: models `re.sub(r'(?<!m)m([^m]+)m(?!m)', r'<i>\1</i>', text)`
with the lookbehind state starting empty at the beginning of the string. -/
def subItal (m : Char) (l : List Char) : List Char :=
  subItalGo m l.length false l

/-- `_process_italic_text`: `*text*` then `_text_`, with negative lookarounds. -/
def processItalicText (l : List Char) : List Char :=
  subItal '_' (subItal '*' l)

/-- One attempted match of the inline-code pattern `` `([^`]+)` `` at the
current position. -/
def tryCode (l : List Char) : Option (List Char × List Char) :=
  match l with
  | [] => none
  | c :: rest =>
    if c = '`' then
      match rest.drop (rest.takeWhile (fun x => x ≠ '`')).length with
      | _ :: after2 =>
        if rest.takeWhile (fun x => x ≠ '`') ≠ [] then
          some ("<code>".data ++ rest.takeWhile (fun x => x ≠ '`') ++ "</code>".data, after2)
        else none
      | [] => none
    else none

/-- Scanner for the inline-code substitution; fuel as in `subBoldGo`. -/
def subCodeGo : Nat → List Char → List Char
  | _, [] => []
  | 0, l => l
  | fuel + 1, c :: rest =>
    match tryCode (c :: rest) with
    | some (ch, after) => ch ++ subCodeGo fuel after
    | none => c :: subCodeGo fuel rest

/-- `_process_code_text`: models ``re.sub(r'`([^`]+)`', r'<code>\1</code>', text)``. -/
def subCode (l : List Char) : List Char := subCodeGo l.length l

/-- One attempted match of the link pattern `\[([^\]]+)\]\(([^)]+)\)` at the
current position; `[^\]]+` and `[^)]+` are greedy runs stopping at the first
closing bracket / parenthesis. -/
def tryLink (l : List Char) : Option (List Char × List Char) :=
  match l with
  | [] => none
  | c :: rest =>
    if c = '[' then
      match rest.drop (rest.takeWhile (fun x => x ≠ ']')).length with
      | _ :: afterLabel =>
        if rest.takeWhile (fun x => x ≠ ']') ≠ [] then
          match afterLabel with
          | c2 :: urlRest =>
            if c2 = '(' then
              match urlRest.drop (urlRest.takeWhile (fun x => x ≠ ')')).length with
              | _ :: afterUrl =>
                if urlRest.takeWhile (fun x => x ≠ ')') ≠ [] then
                  some ("<link href=\"".data ++ urlRest.takeWhile (fun x => x ≠ ')') ++
                    "\">".data ++ rest.takeWhile (fun x => x ≠ ']') ++ "</link>".data, afterUrl)
                else none
              | [] => none
            else none
          | [] => none
        else none
      | [] => none
    else none

/-- Scanner for the link substitution; fuel as in `subBoldGo`. -/
def subLinkGo : Nat → List Char → List Char
  | _, [] => []
  | 0, l => l
  | fuel + 1, c :: rest =>
    match tryLink (c :: rest) with
    | some (ch, after) => ch ++ subLinkGo fuel after
    | none => c :: subLinkGo fuel rest

/-- Link rewriting: models
`re.sub(r'\[([^\]]+)\]\(([^)]+)\)', r'<link href="\2">\1</link>', text)`. -/
def subLink (l : List Char) : List Char := subLinkGo l.length l

/-- `_process_markdown_text`: bold, then italic, then inline code, then links.
An empty input is returned unchanged (the `if not text` guard). -/
def processMarkdownText (l : List Char) : List Char :=
  if l = [] then l
  else subLink (subCode (processItalicText (processBoldText l)))

/-! ### Section classifier (`_detect_section_type`). -/

/-- `any(keyword in text_lower for keyword in kws)`. -/
def containsAny (hay : List Char) (kws : List (List Char)) : Bool :=
  kws.any (fun k => containsSub hay k)

def execKws : List (List Char) :=
  ["executive summary".data, "executive overview".data, "summary".data]

def backgroundKws : List (List Char) :=
  ["background".data, "opportunity".data, "context".data, "overview".data]

def objectiveKws : List (List Char) :=
  ["objectives".data, "goals".data, "aims".data, "targets".data,
   "primary objective".data, "secondary objective".data]

def methodologyKws : List (List Char) :=
  ["methodology".data, "approach".data, "methods".data, "process".data,
   "phases".data, "phase".data]

def researchAreasKws : List (List Char) :=
  ["research areas".data, "focus areas".data, "key areas".data, "research focus".data]

def timelineKws : List (List Char) :=
  ["timeline".data, "schedule".data, "milestones".data, "deadlines".data]

def investmentKws : List (List Char) :=
  ["investment".data, "budget".data, "cost".data, "funding".data, "financial".data]

def deliverableKws : List (List Char) :=
  ["deliverables".data, "outputs".data, "results".data, "outcomes".data, "deliverable".data]

def researchQuestionsKws : List (List Char) :=
  ["research questions".data, "questions".data, "key questions".data]

def participantsKws : List (List Char) :=
  ["participants".data, "target".data, "audience".data, "users".data, "segments".data]

/-- `_detect_section_type`: lower-case and strip, then test the keyword sets in
the fixed source order; first match wins, `"general"` is the fallback. -/
def detectSectionType (text : List Char) : String :=
  if containsAny (stripL (toLowerL text)) execKws then "executive_summary"
  else if containsAny (stripL (toLowerL text)) backgroundKws then "background"
  else if containsAny (stripL (toLowerL text)) objectiveKws then "objective"
  else if containsAny (stripL (toLowerL text)) methodologyKws then "methodology"
  else if containsAny (stripL (toLowerL text)) researchAreasKws then "research_areas"
  else if containsAny (stripL (toLowerL text)) timelineKws then "timeline"
  else if containsAny (stripL (toLowerL text)) investmentKws then "investment"
  else if containsAny (stripL (toLowerL text)) deliverableKws then "deliverable"
  else if containsAny (stripL (toLowerL text)) researchQuestionsKws then "research_questions"
  else if containsAny (stripL (toLowerL text)) participantsKws then "participants"
  else "general"

/-- Specification-shaped classifier: an ordered list of (category, keyword-set)
pairs tested in sequence, first match wins, `"general"` fallback
(spec section 4.3).  Used to state claim C8 as a refinement. -/
def categoryKeywordOrder : List (String × List (List Char)) :=
  [("executive_summary", execKws), ("background", backgroundKws),
   ("objective", objectiveKws), ("methodology", methodologyKws),
   ("research_areas", researchAreasKws), ("timeline", timelineKws),
   ("investment", investmentKws), ("deliverable", deliverableKws),
   ("research_questions", researchQuestionsKws), ("participants", participantsKws)]

def classifyOrdered (text : List Char) : String :=
  categoryKeywordOrder.foldr
    (fun p acc => if containsAny (stripL (toLowerL text)) p.2 then p.1 else acc) "general"

/-! ### Markdown tokenizer (`_parse_markdown_enhanced`). -/

/-- The typed content elements produced by the tokenizer
(`('paragraph', text, section)`, `('header', text, level, section)`,
`('list_item', text, indent)`, `('numbered_list', text, number)`,
`('quote', text)`, `('hr', '')`). -/
inductive MDElement where
  | paragraph (text : List Char) (sectionType : String)
  | header (text : List Char) (level : Nat) (sectionType : String)
  | listItem (text : List Char) (indent : Nat)
  | numberedList (text : List Char) (number : List Char)
  | quote (text : List Char)
  | hr
deriving DecidableEq

/-- Flushing the paragraph accumulator (`if current_paragraph: ...`). -/
def flushPara (para : List Char) : List MDElement :=
  if para = [] then []
  else [.paragraph (processMarkdownText (stripL para)) (detectSectionType (stripL para))]

/-- `re.match(r'^[\-\*\+]\s+', line)` on the stripped line. -/
def isBulletLine (line : List Char) : Bool :=
  match line with
  | c :: d :: _ => (c == '-' || c == '*' || c == '+') && pyWs d
  | _ => false

/-- `re.match(r'^\d+\.\s+', line)` on the stripped line. -/
def isNumberedLine (line : List Char) : Bool :=
  (line.takeWhile Char.isDigit ≠ []) &&
    (match line.drop (line.takeWhile Char.isDigit).length with
     | '.' :: w :: _ => pyWs w
     | _ => false)

/-- `line.startswith('> ')`. -/
def isQuoteLine (line : List Char) : Bool := ['>', ' '].isPrefixOf line

/-- `line in ['---', '***', '___']`. -/
def isHrLine (line : List Char) : Bool :=
  line == ['-', '-', '-'] || line == ['*', '*', '*'] || line == ['_', '_', '_']

/-- Header level: the run of leading `#` characters (no clamping in the source). -/
def headerLevel (line : List Char) : Nat := (line.takeWhile (fun c => c = '#')).length

/-- The per-line state machine of `_parse_markdown_enhanced`: processes the
split lines while maintaining the paragraph accumulator `para`.  The branch
order (blank / header / bullet / numbered / quote / rule / accumulate) follows
the source; in the numbered branch the accumulator is flushed *before* the
`split('. ', 1)` test, and when that test fails the line falls through to the
quote / rule / accumulate checks with the accumulator already reset, exactly
as in the Python control flow. -/
def parseLoop : List (List Char) → List Char → List MDElement
  | [], para => flushPara para
  | origLine :: rest, para =>
    if stripL origLine = [] then flushPara para ++ parseLoop rest []
    else if (stripL origLine).head? = some '#' then
      flushPara para ++
        [.header (stripL ((stripL origLine).drop (headerLevel (stripL origLine))))
          (headerLevel (stripL origLine))
          (detectSectionType (stripL ((stripL origLine).drop (headerLevel (stripL origLine)))))] ++
        parseLoop rest []
    else if isBulletLine (stripL origLine) then
      flushPara para ++
        [.listItem (processMarkdownText (stripL ((stripL origLine).drop 2)))
          (origLine.takeWhile pyWs).length] ++
        parseLoop rest []
    else if isNumberedLine (stripL origLine) then
      match findCloseSplit ['.', ' '] (stripL origLine) with
      | some (num, t) =>
        flushPara para ++ [.numberedList (processMarkdownText (stripL t)) num] ++
          parseLoop rest []
      | none =>
        flushPara para ++
          (if isQuoteLine (stripL origLine) then
            [.quote (processMarkdownText (stripL ((stripL origLine).drop 2)))] ++ parseLoop rest []
          else if isHrLine (stripL origLine) then
            [.hr] ++ parseLoop rest []
          else parseLoop rest (stripL origLine))
    else if isQuoteLine (stripL origLine) then
      flushPara para ++
        [.quote (processMarkdownText (stripL ((stripL origLine).drop 2)))] ++ parseLoop rest []
    else if isHrLine (stripL origLine) then
      flushPara para ++ [.hr] ++ parseLoop rest []
    else
      parseLoop rest (if para = [] then stripL origLine else para ++ ' ' :: stripL origLine)

/-- `_parse_markdown_enhanced`: escape-sequence normalisation (`\n`, `\t`),
line split, then the per-line state machine. -/
def parseMarkdownEnhanced (text : List Char) : List MDElement :=
  if text = [] then []
  else
    parseLoop
      (splitOnChar '\n'
        (replaceAll ['\\', 't'] ['\t'] (replaceAll ['\\', 'n'] ['\n'] text))) []

/-! ### Document layout (`generate_report`, structured path) and styles. -/

/-- The paragraph-style table set up by `_setup_styles`, by attribute name. -/
inductive StyleName where
  | reportTitle | reportDate | sourceHeader | title | date | link | summary
  | longContent | sectionHeader | executiveSummary | objective | methodology
  | deliverable | background | researchAreas | timeline | investment
  | proposalH2 | proposalH3 | h4 | enhancedBulletList | numberedList | enhancedQuote
deriving DecidableEq

/-- A flowable appended to the `story`: a styled paragraph, a `Spacer(w, h)`,
a `PageBreak()`, or a `KeepTogether([...])` group. -/
inductive Block where
  | para (text : List Char) (style : StyleName)
  | spacer (w h : Nat)
  | pageBreak
  | keepTogether (content : List Block)

/-- The paragraph style chosen for a structured-path paragraph from its
detected section type (the `elif` chain of `generate_report`); every other
section type falls back to `long_content_style`. -/
def styleForSection (st : String) : StyleName :=
  if st = "executive_summary" then .executiveSummary
  else if st = "objective" then .objective
  else if st = "methodology" then .methodology
  else if st = "deliverable" then .deliverable
  else if st = "background" then .background
  else if st = "research_areas" then .researchAreas
  else if st = "timeline" then .timeline
  else if st = "investment" then .investment
  else .longContent

/-- The header style chosen from the header level in `generate_report`
(level 1 → article-title style, 2 → boxed proposal H2, 3 → proposal H3,
anything else → the smallest header style `h4_style`). -/
def headerStyleFor (lvl : Nat) : StyleName :=
  if lvl = 1 then .title
  else if lvl = 2 then .proposalH2
  else if lvl = 3 then .proposalH3
  else .h4

/-- The three story blocks emitted for a horizontal rule. -/
def hrBlocks : List Block :=
  [.spacer 1 10, .para (List.replicate 60 '─') .longContent, .spacer 1 10]

/-- The structured-path element loop of `generate_report`: `sec` is the
`current_section` buffer of long-content copies of the non-empty paragraphs
seen since the last flush.  A non-empty paragraph is appended immediately with
its category style and also copied into the buffer; a header is appended and
then, if the buffer is non-empty, the buffer is flushed as a `KeepTogether`
after it; list items, numbered items, quotes and rules are appended directly;
a trailing non-empty buffer is flushed at the end. -/
def layoutLoop : List MDElement → List Block → List Block
  | [], sec => if sec.isEmpty then [] else [.keepTogether sec]
  | e :: rest, sec =>
    match e with
    | .paragraph t st =>
      if t = [] then layoutLoop rest sec
      else .para t (styleForSection st) :: layoutLoop rest (sec ++ [.para t .longContent])
    | .header t lvl _ =>
      .para t (headerStyleFor lvl) ::
        ((if sec.isEmpty then [] else [.keepTogether sec]) ++ layoutLoop rest [])
    | .listItem t _ => .para ("• ".data ++ t) .enhancedBulletList :: layoutLoop rest sec
    | .numberedList t num => .para (num ++ ". ".data ++ t) .numberedList :: layoutLoop rest sec
    | .quote t => .para ("💬 ".data ++ t) .enhancedQuote :: layoutLoop rest sec
    | .hr => hrBlocks ++ layoutLoop rest sec

/-- The structured-path rendering of a tokenized element sequence
(`current_section` starts empty). -/
def layoutElements (elems : List MDElement) : List Block := layoutLoop elems []

/-! ### Table of contents (`_create_table_of_contents`). -/

/-- One TOC entry: `"&nbsp;" * (header_level - 1) * 4` of indent, a bullet,
and the header text; styled by header level. -/
def tocEntry (t : List Char) (lvl : Nat) : Block :=
  .para ((List.replicate ((lvl - 1) * 4) "&nbsp;".data).foldr (· ++ ·) [] ++ "• ".data ++ t)
    (if lvl = 1 then .title else if lvl = 2 then .sectionHeader else .longContent)

/-- The entry loop of `_create_table_of_contents`: one entry per header element. -/
def tocEntriesLoop : List MDElement → List Block
  | [] => []
  | .header t lvl _ :: rest => tocEntry t lvl :: tocEntriesLoop rest
  | _ :: rest => tocEntriesLoop rest

/-- `_create_table_of_contents`: title, spacer, the entries, a spacer and a
forced page break. -/
def tocElements (elems : List MDElement) : List Block :=
  [.para "📋 Table of Contents".data .reportTitle, .spacer 1 15] ++
    tocEntriesLoop elems ++ [.spacer 1 20, .pageBreak]

/-! ### Report assembly (`generate_report` and helpers). -/

/-- An article record (spec section 3; the source reads `source` directly and
the remaining fields through `.get` with string defaults, so all five fields
are present here). -/
structure Article where
  source : List Char
  title : List Char
  link : List Char
  date : List Char
  summary : List Char
deriving DecidableEq

/-- The structured-content test of `generate_report`:
`len(summary) > 500 or summary.count('#') > 2 or summary.count('**') > 3 or
summary.count('- ') > 3 or '\n' in summary` (the last is the two-character
escaped-newline token). -/
def isStructured (s : List Char) : Bool :=
  decide (s.length > 500) || decide (countSub s ['#'] > 2) ||
    decide (countSub s ['*', '*'] > 3) || decide (countSub s ['-', ' '] > 3) ||
    containsSub s ['\\', 'n']

/-- The plain-path truncation: `summary[:600] + "..."` when longer than 600. -/
def truncateSummary (s : List Char) : List Char :=
  if s.length > 600 then s.take 600 ++ "...".data else s

/-- The structured-path body: optional table of contents (element count > 10)
followed by the laid-out elements. -/
def structuredBody (s : List Char) : List Block :=
  (if (parseMarkdownEnhanced s).length > 10 then tocElements (parseMarkdownEnhanced s) else []) ++
    layoutElements (parseMarkdownEnhanced s)

/-- Body routing of `generate_report`: structured path or plain truncated
paragraph in `summary_style`. -/
def renderBody (s : List Char) : List Block :=
  if isStructured s then structuredBody s
  else [.para (truncateSummary s) .summary]

/-! ### Date formatting (`_format_date`).  The three `strptime` patterns
`'%a, %d %b %Y %H:%M:%S'`, `'%Y-%m-%d'`, `'%d %b %Y'` are embedded following
CPython `_strptime` semantics: each numeric directive is a fixed ordered
alternation of digit shapes, format whitespace matches one or more whitespace
characters, names match case-insensitively, the regex match is anchored at the
start only, leftover input after the match is an error, and the resulting
(year, month, day) must form a valid calendar date (year at least 1). -/

def digitVal (c : Char) : Nat := c.toNat - '0'.toNat

/-- Candidate matches for `%d` — regex `(3[01]|[12]\d|0[1-9]|[1-9])`, in
alternation order, each with the remaining input. -/
def dayCands (l : List Char) : List (Nat × List Char) :=
  match l with
  | a :: b :: rest =>
    (if a = '3' ∧ (b = '0' ∨ b = '1') then [(30 + digitVal b, rest)] else []) ++
    (if (a = '1' ∨ a = '2') ∧ b.isDigit then [(10 * digitVal a + digitVal b, rest)] else []) ++
    (if a = '0' ∧ ('1' ≤ b ∧ b ≤ '9') then [(digitVal b, rest)] else []) ++
    (if '1' ≤ a ∧ a ≤ '9' then [(digitVal a, b :: rest)] else [])
  | [a] => if '1' ≤ a ∧ a ≤ '9' then [(digitVal a, [])] else []
  | [] => []

/-- Candidate matches for `%m` — regex `(1[012]|0[1-9]|[1-9])`. -/
def monthCands (l : List Char) : List (Nat × List Char) :=
  match l with
  | a :: b :: rest =>
    (if a = '1' ∧ (b = '0' ∨ b = '1' ∨ b = '2') then [(10 + digitVal b, rest)] else []) ++
    (if a = '0' ∧ ('1' ≤ b ∧ b ≤ '9') then [(digitVal b, rest)] else []) ++
    (if '1' ≤ a ∧ a ≤ '9' then [(digitVal a, b :: rest)] else [])
  | [a] => if '1' ≤ a ∧ a ≤ '9' then [(digitVal a, [])] else []
  | [] => []

/-- Candidate matches for `%H` — regex `(2[0-3]|[0-1]\d|\d)`. -/
def hourCands (l : List Char) : List (Nat × List Char) :=
  match l with
  | a :: b :: rest =>
    (if a = '2' ∧ ('0' ≤ b ∧ b ≤ '3') then [(20 + digitVal b, rest)] else []) ++
    (if (a = '0' ∨ a = '1') ∧ b.isDigit then [(10 * digitVal a + digitVal b, rest)] else []) ++
    (if a.isDigit then [(digitVal a, b :: rest)] else [])
  | [a] => if a.isDigit then [(digitVal a, [])] else []
  | [] => []

/-- Candidate matches for `%M` — regex `([0-5]\d|\d)`. -/
def minuteCands (l : List Char) : List (Nat × List Char) :=
  match l with
  | a :: b :: rest =>
    (if ('0' ≤ a ∧ a ≤ '5') ∧ b.isDigit then [(10 * digitVal a + digitVal b, rest)] else []) ++
    (if a.isDigit then [(digitVal a, b :: rest)] else [])
  | [a] => if a.isDigit then [(digitVal a, [])] else []
  | [] => []

/-- Candidate matches for `%S` — regex `(6[0-1]|[0-5]\d|\d)`. -/
def secondCands (l : List Char) : List (Nat × List Char) :=
  match l with
  | a :: b :: rest =>
    (if a = '6' ∧ (b = '0' ∨ b = '1') then [(60 + digitVal b, rest)] else []) ++
    (if ('0' ≤ a ∧ a ≤ '5') ∧ b.isDigit then [(10 * digitVal a + digitVal b, rest)] else []) ++
    (if a.isDigit then [(digitVal a, b :: rest)] else [])
  | [a] => if a.isDigit then [(digitVal a, [])] else []
  | [] => []

/-- `%Y` — regex `\d\d\d\d`: exactly four digits. -/
def yearMatch (l : List Char) : Option (Nat × List Char) :=
  match l with
  | a :: b :: c :: d :: rest =>
    if a.isDigit ∧ b.isDigit ∧ c.isDigit ∧ d.isDigit then
      some (1000 * digitVal a + 100 * digitVal b + 10 * digitVal c + digitVal d, rest)
    else none
  | _ => none

/-- Regex backtracking over an ordered candidate list: the first candidate
whose continuation succeeds wins. -/
def firstCand {α : Type} (cands : List (Nat × List Char)) (k : Nat → List Char → Option α) :
    Option α :=
  match cands with
  | [] => none
  | (v, r) :: t =>
    match k v r with
    | some x => some x
    | none => firstCand t k

/-- A literal character in the pattern. -/
def litChar (c : Char) (l : List Char) : Option (List Char) :=
  match l with
  | x :: rest => if x = c then some rest else none
  | [] => none

/-- Format whitespace: `\s+`. -/
def wsPlus (l : List Char) : Option (List Char) :=
  if l.takeWhile pyWs = [] then none else some (l.drop (l.takeWhile pyWs).length)

/-- Case-insensitive abbreviated weekday name (`%a`); the value is ignored. -/
def weekdayMatch (l : List Char) : Option (List Char) :=
  if ["mon".data, "tue".data, "wed".data, "thu".data, "fri".data, "sat".data,
      "sun".data].any (fun nm => toLowerL (l.take 3) = nm) then
    some (l.drop 3)
  else none

/-- Case-insensitive abbreviated month name (`%b`) and its month number. -/
def monthNameMatch (l : List Char) : Option (Nat × List Char) :=
  match [("jan".data, 1), ("feb".data, 2), ("mar".data, 3), ("apr".data, 4),
         ("may".data, 5), ("jun".data, 6), ("jul".data, 7), ("aug".data, 8),
         ("sep".data, 9), ("oct".data, 10), ("nov".data, 11),
         ("dec".data, 12)].find? (fun p => toLowerL (l.take 3) = p.1) with
  | some p => some (p.2, l.drop 3)
  | none => none

def isLeap (y : Nat) : Bool := (y % 4 = 0 && y % 100 ≠ 0) || y % 400 = 0

def daysInMonth (y m : Nat) : Nat :=
  if m = 2 then (if isLeap y then 29 else 28)
  else if m = 4 ∨ m = 6 ∨ m = 9 ∨ m = 11 then 30 else 31

/-- `datetime(year, month, day)` construction succeeds: year within
`MINYEAR..MAXYEAR`, day within the month. -/
def validDate (y m d : Nat) : Bool :=
  decide (1 ≤ y) && decide (y ≤ 9999) && decide (1 ≤ m) && decide (m ≤ 12) &&
    decide (1 ≤ d) && decide (d ≤ daysInMonth y m)

/-- The `datetime` constructor's time-of-day range check (hour 0..23, minute
0..59, second 0..59).  The `%S` regex alternative `6[0-1]` can match 60 or 61,
which the constructor then rejects with `ValueError`, failing the format. -/
def validTime (hh mi ss : Nat) : Bool :=
  decide (hh ≤ 23) && decide (mi ≤ 59) && decide (ss ≤ 59)

/-- `strptime(s, '%a, %d %b %Y %H:%M:%S')`: the regex phase returns the first
full pattern match (with leftover), then leftover input, an invalid calendar
date or an out-of-range time of day makes the format fail. -/
def parseFmt1 (l : List Char) : Option (Nat × Nat × Nat) :=
  match
    (match weekdayMatch l with
     | none => none
     | some r1 =>
       match litChar ',' r1 with
       | none => none
       | some r2 =>
         match wsPlus r2 with
         | none => none
         | some r3 =>
           firstCand (dayCands r3) (fun d r4 =>
             match wsPlus r4 with
             | none => none
             | some r5 =>
               match monthNameMatch r5 with
               | none => none
               | some (m, r6) =>
                 match wsPlus r6 with
                 | none => none
                 | some r7 =>
                   match yearMatch r7 with
                   | none => none
                   | some (y, r8) =>
                     match wsPlus r8 with
                     | none => none
                     | some r9 =>
                       firstCand (hourCands r9) (fun hh r10 =>
                         match litChar ':' r10 with
                         | none => none
                         | some r11 =>
                           firstCand (minuteCands r11) (fun mi r12 =>
                             match litChar ':' r12 with
                             | none => none
                             | some r13 =>
                               firstCand (secondCands r13) (fun ss r14 =>
                                 some ((y, m, d), (hh, mi, ss), r14))))))
  with
  | some ((y, m, d), (hh, mi, ss), rest) =>
    if rest = [] ∧ validDate y m d ∧ validTime hh mi ss then some (y, m, d) else none
  | none => none

/-- `strptime(s, '%Y-%m-%d')`. -/
def parseFmt2 (l : List Char) : Option (Nat × Nat × Nat) :=
  match
    (match yearMatch l with
     | none => none
     | some (y, r1) =>
       match litChar '-' r1 with
       | none => none
       | some r2 =>
         firstCand (monthCands r2) (fun m r3 =>
           match litChar '-' r3 with
           | none => none
           | some r4 =>
             firstCand (dayCands r4) (fun d r5 => some ((y, m, d), r5))))
  with
  | some ((y, m, d), rest) => if rest = [] ∧ validDate y m d then some (y, m, d) else none
  | none => none

/-- `strptime(s, '%d %b %Y')`. -/
def parseFmt3 (l : List Char) : Option (Nat × Nat × Nat) :=
  match
    (firstCand (dayCands l) (fun d r1 =>
      match wsPlus r1 with
      | none => none
      | some r2 =>
        match monthNameMatch r2 with
        | none => none
        | some (m, r3) =>
          match wsPlus r3 with
          | none => none
          | some r4 =>
            match yearMatch r4 with
            | none => none
            | some (y, r5) => some ((y, m, d), r5)))
  with
  | some ((y, m, d), rest) => if rest = [] ∧ validDate y m d then some (y, m, d) else none
  | none => none

/-- The format loop of `_format_date`, in source order. -/
def tryFormats (l : List Char) : Option (Nat × Nat × Nat) :=
  match parseFmt1 l with
  | some d => some d
  | none =>
    match parseFmt2 l with
    | some d => some d
    | none => parseFmt3 l

def monthFullName (m : Nat) : List Char :=
  if m = 1 then "January".data else if m = 2 then "February".data
  else if m = 3 then "March".data else if m = 4 then "April".data
  else if m = 5 then "May".data else if m = 6 then "June".data
  else if m = 7 then "July".data else if m = 8 then "August".data
  else if m = 9 then "September".data else if m = 10 then "October".data
  else if m = 11 then "November".data else "December".data

def pad2 (n : Nat) : List Char :=
  if n < 10 then '0' :: (Nat.repr n).data else (Nat.repr n).data

/-- `parsed_date.strftime('%B %d, %Y')`. -/
def strftimeBdY (y m d : Nat) : List Char :=
  monthFullName m ++ ' ' :: pad2 d ++ ", ".data ++ (Nat.repr y).data

/-- The `GMT` pre-processing of `_format_date`: when the input contains
`'GMT'`, every occurrence is removed and the result stripped (the source
rebinds `date_string` to this value). -/
def preprocessGMT (ds : List Char) : List Char :=
  if containsSub ds "GMT".data then stripL (replaceAll "GMT".data [] ds) else ds

/-- `_format_date`: pre-process `GMT`, try the three formats in order and
reformat on success; on total failure return the (pre-processed) string. -/
def formatDate (ds : List Char) : List Char :=
  match tryFormats (preprocessGMT ds) with
  | some (y, m, d) => strftimeBdY y m d
  | none => preprocessGMT ds

/-! ### Source-name formatting and the full report assembler. -/

/-- Python `str.title()` (ASCII): upper-case each letter that follows a
non-letter, lower-case the other letters. -/
def titleCaseGo : Bool → List Char → List Char
  | _, [] => []
  | prevAlpha, c :: rest =>
    if c.isAlpha then
      (if prevAlpha then c.toLower else c.toUpper) :: titleCaseGo true rest
    else c :: titleCaseGo false rest

def titleCase (l : List Char) : List Char := titleCaseGo false l

/-- `_format_source_name`: fixed mapping with a
`source.replace('_', ' ').title()` fallback. -/
def formatSourceName (src : List Char) : List Char :=
  if src = "ethereum_blog".data then "Ethereum Blog".data
  else if src = "arbitrum_medium".data then "Arbitrum Medium".data
  else if src = "polygon_blog".data then "Polygon Blog".data
  else if src = "solana_news".data then "Solana News".data
  else if src = "flow_blog".data then "Flow Blog".data
  else titleCase (replaceAll ['_'] [' '] src)

/-- The three metadata paragraphs emitted per article before its body. -/
def articleMeta (a : Article) : List Block :=
  [.para a.title .title,
   .para ("Published: ".data ++ formatDate a.date) .date,
   .para ("Link: ".data ++ a.link) .link]

/-- All story blocks of one article: metadata, body, trailing spacer. -/
def renderArticle (a : Article) : List Block :=
  articleMeta a ++ renderBody a.summary ++ [.spacer 1 15]

/-- The source keys of `articles_by_source` in first-seen order (Python dict
insertion order). -/
def sourcesOrder (arts : List Article) : List (List Char) :=
  arts.foldl (fun acc a => if acc.contains a.source then acc else acc ++ [a.source]) []

/-- The article group of one source, in input order. -/
def articlesOf (arts : List Article) (src : List Char) : List Article :=
  arts.filter (fun a => a.source == src)

/-- One source group: source header then its articles. -/
def renderSource (arts : List Article) (src : List Char) : List Block :=
  .para (formatSourceName src) .sourceHeader ::
    (articlesOf arts src).foldr (fun a acc => renderArticle a ++ acc) []

/-- The report header: title and generation timestamp (the wall-clock text is
a parameter `now`). -/
def reportHeader (now : List Char) : List Block :=
  [.para "📰 Web3 News Updates Report".data .reportTitle,
   .para ("🕒 Generated on ".data ++ now) .reportDate,
   .spacer 1 20]

/-- `generate_report`: raises `ValueError` on an empty article list (before the
document object is even created), otherwise builds the full story — header,
then each source group followed by a page break except after the last group —
and writes it to `filename`. -/
def generateReport (now filename : List Char) (arts : List Article) :
    Except (List Char) (List Block × List Char) :=
  if arts = [] then .error "No articles provided for PDF generation".data
  else
    .ok
      (reportHeader now ++
        (sourcesOrder arts).foldr
          (fun src acc =>
            renderSource arts src ++
              (if (sourcesOrder arts).length > 1 ∧ (sourcesOrder arts).getLast? ≠ some src then
                [.pageBreak]
              else []) ++ acc)
          [],
       filename)

/-- The files written by one `generate_report` call: `doc.build(story)` runs
only on the success path, after the empty-input check. -/
def writtenFiles (r : Except (List Char) (List Block × List Char)) : List (List Char) :=
  match r with
  | .error _ => []
  | .ok (_, fn) => [fn]

/-! ### Specification-shaped views of the structured-path layout, used to
state the section-grouping claims (C1, C10). -/

def isHeaderE : MDElement → Bool
  | .header _ _ _ => true
  | _ => false

/-- The block(s) every element contributes directly (in place) to the story. -/
def immOut : MDElement → List Block
  | .paragraph t st => if t = [] then [] else [.para t (styleForSection st)]
  | .header t lvl _ => [.para t (headerStyleFor lvl)]
  | .listItem t _ => [.para ("• ".data ++ t) .enhancedBulletList]
  | .numberedList t num => [.para (num ++ ". ".data ++ t) .numberedList]
  | .quote t => [.para ("💬 ".data ++ t) .enhancedQuote]
  | .hr => hrBlocks

/-- The long-content copy a non-empty paragraph contributes to the
`current_section` buffer; all other elements contribute nothing. -/
def paraCopy : MDElement → Option Block
  | .paragraph t _ => if t = [] then none else some (.para t .longContent)
  | _ => none

/-- In-place outputs of a header-free segment. -/
def segImm (seg : List MDElement) : List Block :=
  seg.foldr (fun e acc => immOut e ++ acc) []

/-- Buffered long-content copies of a header-free segment. -/
def segCopies (seg : List MDElement) : List Block := seg.filterMap paraCopy

/-- A non-empty buffer becomes one `KeepTogether` group. -/
def flushGroup (buf : List Block) : List Block :=
  if buf.isEmpty then [] else [.keepTogether buf]

/-- Splits an element list into (header-free segment, header) pairs plus the
trailing header-free segment. -/
def splitSegs : List MDElement → List (List MDElement × MDElement) × List MDElement
  | [] => ([], [])
  | e :: rest =>
    match splitSegs rest with
    | ((s1, h1) :: tl, last) =>
      if isHeaderE e then (([], e) :: (s1, h1) :: tl, last)
      else ((e :: s1, h1) :: tl, last)
    | ([], last) =>
      if isHeaderE e then ([([], e)], last) else ([], e :: last)

/-- Claim-shaped rendering of the structured path (spec section 4.4, section
grouping): each header-delimited segment contributes its in-place blocks, then
the header's block, then the buffered copies of the segment's non-empty
paragraphs as one keep-together group; the trailing segment contributes its
in-place blocks and a final keep-together group. -/
def specSectionGrouping (elems : List MDElement) : List Block :=
  (splitSegs elems).1.foldr
    (fun p acc => segImm p.1 ++ immOut p.2 ++ flushGroup (segCopies p.1) ++ acc)
    (segImm (splitSegs elems).2 ++ flushGroup (segCopies (splitSegs elems).2))

/-- The TOC entry of a header element (claim C2's per-header view). -/
def headerTocEntry : MDElement → Option Block
  | .header t lvl _ => some (tocEntry t lvl)
  | _ => none

/-- Whether a story block is a `KeepTogether` group. -/
def blockIsKeep : Block → Bool
  | .keepTogether _ => true
  | _ => false

/-- No inline-formatting marker characters occur in the text. -/
def noMarkers (l : List Char) : Bool :=
  l.all (fun c => !(c == '*') && !(c == '_') && !(c == '`') && !(c == '['))

/-! ### Lemmas: the inline formatter fixes marker-free text. -/

theorem isPrefixOf_eq_false_of_head_not_mem (c0 : Char) (d2 l : List Char)
    (h : c0 ∉ l) : (c0 :: d2).isPrefixOf l = false := by
  cases l with
  | nil => rfl
  | cons x xs =>
    have hx : ¬(c0 == x) = true := by
      intro hb
      exact h (by simp [beq_iff_eq] at hb; simp [hb])
    simp only [List.isPrefixOf, Bool.and_eq_false_iff]
    left
    exact Bool.not_eq_true _ ▸ (Bool.eq_false_iff.mpr hx)

theorem tryBold_none_of_not_mem (c0 : Char) (d2 l : List Char) (h : c0 ∉ l) :
    tryBold (c0 :: d2) l = none := by
  unfold tryBold
  rw [if_neg]
  intro hcon
  have h2 := hcon.2
  rw [isPrefixOf_eq_false_of_head_not_mem c0 d2 l h] at h2
  exact Bool.false_ne_true h2

theorem subBoldGo_id (c0 : Char) (d2 : List Char) :
    ∀ (fuel : Nat) (l : List Char), c0 ∉ l → subBoldGo (c0 :: d2) fuel l = l := by
  intro fuel
  induction fuel with
  | zero => intro l _; cases l <;> rfl
  | succ n ih =>
    intro l h
    cases l with
    | nil => rfl
    | cons c rest =>
      rw [subBoldGo, tryBold_none_of_not_mem c0 d2 _ h]
      have : c0 ∉ rest := fun hm => h (List.mem_cons_of_mem _ hm)
      rw [ih rest this]

theorem subBold_id (c0 : Char) (d2 l : List Char) (h : c0 ∉ l) :
    subBold (c0 :: d2) l = l := subBoldGo_id c0 d2 l.length l h

theorem tryItal_none_of_not_mem (m : Char) (p : Bool) (l : List Char) (h : m ∉ l) :
    tryItal m p l = none := by
  cases l with
  | nil => rfl
  | cons c rest =>
    have hcm : ¬(c = m ∧ p = false) := fun hcon => h (hcon.1 ▸ List.mem_cons_self c rest)
    simp only [tryItal]
    rw [if_neg hcm]

theorem subItalGo_id (m : Char) :
    ∀ (fuel : Nat) (p : Bool) (l : List Char), m ∉ l → subItalGo m fuel p l = l := by
  intro fuel
  induction fuel with
  | zero => intro p l _; cases l <;> rfl
  | succ n ih =>
    intro p l h
    cases l with
    | nil => rfl
    | cons c rest =>
      rw [subItalGo, tryItal_none_of_not_mem m p _ h]
      have : m ∉ rest := fun hm => h (List.mem_cons_of_mem _ hm)
      rw [ih (c == m) rest this]

theorem subItal_id (m : Char) (l : List Char) (h : m ∉ l) : subItal m l = l :=
  subItalGo_id m l.length false l h

theorem tryCode_none_of_not_mem (l : List Char) (h : '`' ∉ l) : tryCode l = none := by
  cases l with
  | nil => rfl
  | cons c rest =>
    have hcm : ¬(c = '`') := fun hcon => h (hcon ▸ List.mem_cons_self c rest)
    simp only [tryCode]
    rw [if_neg hcm]

theorem subCodeGo_id :
    ∀ (fuel : Nat) (l : List Char), '`' ∉ l → subCodeGo fuel l = l := by
  intro fuel
  induction fuel with
  | zero => intro l _; cases l <;> rfl
  | succ n ih =>
    intro l h
    cases l with
    | nil => rfl
    | cons c rest =>
      rw [subCodeGo, tryCode_none_of_not_mem _ h]
      have : '`' ∉ rest := fun hm => h (List.mem_cons_of_mem _ hm)
      rw [ih rest this]

theorem subCode_id (l : List Char) (h : '`' ∉ l) : subCode l = l :=
  subCodeGo_id l.length l h

theorem tryLink_none_of_not_mem (l : List Char) (h : '[' ∉ l) : tryLink l = none := by
  cases l with
  | nil => rfl
  | cons c rest =>
    have hcm : ¬(c = '[') := fun hcon => h (hcon ▸ List.mem_cons_self c rest)
    simp only [tryLink]
    rw [if_neg hcm]

theorem subLinkGo_id :
    ∀ (fuel : Nat) (l : List Char), '[' ∉ l → subLinkGo fuel l = l := by
  intro fuel
  induction fuel with
  | zero => intro l _; cases l <;> rfl
  | succ n ih =>
    intro l h
    cases l with
    | nil => rfl
    | cons c rest =>
      rw [subLinkGo, tryLink_none_of_not_mem _ h]
      have : '[' ∉ rest := fun hm => h (List.mem_cons_of_mem _ hm)
      rw [ih rest this]

theorem subLink_id (l : List Char) (h : '[' ∉ l) : subLink l = l :=
  subLinkGo_id l.length l h

theorem noMarkers_not_mem (l : List Char) (h : noMarkers l = true) :
    '*' ∉ l ∧ '_' ∉ l ∧ '`' ∉ l ∧ '[' ∉ l := by
  simp only [noMarkers, List.all_eq_true, Bool.and_eq_true, Bool.not_eq_true',
    beq_eq_false_iff_ne, ne_eq] at h
  refine ⟨fun hm => ?_, fun hm => ?_, fun hm => ?_, fun hm => ?_⟩
  · exact (h _ hm).1.1.1 rfl
  · exact (h _ hm).1.1.2 rfl
  · exact (h _ hm).1.2 rfl
  · exact (h _ hm).2 rfl

/-- The inline formatter returns marker-free text unchanged. -/
theorem processMarkdownText_id (l : List Char) (h : noMarkers l = true) :
    processMarkdownText l = l := by
  obtain ⟨hs, hu, hb, hl⟩ := noMarkers_not_mem l h
  unfold processMarkdownText
  split
  · rfl
  · unfold processBoldText processItalicText
    rw [subBold_id '*' _ _ hs, subBold_id '*' _ _ hs, subBold_id '_' _ _ hu,
      subItal_id '*' _ hs, subItal_id '_' _ hu, subCode_id _ hb, subLink_id _ hl]

theorem countSubGo_zero (c0 : Char) (p : List Char) :
    ∀ (fuel : Nat) (l : List Char), c0 ∉ l → countSubGo (c0 :: p) fuel l = 0 := by
  intro fuel
  induction fuel with
  | zero => intro l _; cases l <;> rfl
  | succ n ih =>
    intro l h
    cases l with
    | nil => rfl
    | cons c rest =>
      rw [countSubGo, if_neg]
      · exact ih rest (fun hm => h (List.mem_cons_of_mem _ hm))
      · intro hcon
        have h2 := hcon.2
        rw [isPrefixOf_eq_false_of_head_not_mem c0 p _ h] at h2
        exact Bool.false_ne_true h2

theorem countSub_zero (l : List Char) (c0 : Char) (p : List Char) (h : c0 ∉ l) :
    countSub l (c0 :: p) = 0 := countSubGo_zero c0 p l.length l h

theorem containsSub_false (c0 : Char) (p : List Char) :
    ∀ l : List Char, c0 ∉ l → containsSub l (c0 :: p) = false := by
  intro l
  induction l with
  | nil => intro _; rfl
  | cons c rest ih =>
    intro h
    rw [containsSub, isPrefixOf_eq_false_of_head_not_mem c0 p _ h,
      ih (fun hm => h (List.mem_cons_of_mem _ hm))]
    rfl

/-! ### Claim theorems. -/

/-- C9 (counterexample): the inline formatter is not idempotent.  On the input
made of doubled backticks around `a`, the first pass wraps the inner
single-backtick span, leaving the outer backticks adjacent to marker-free
text, and the second pass wraps the whole result again, double-wrapping the
code annotation. -/
theorem inline_formatter_not_idempotent_cex :
    processMarkdownText "``a``".data = "`<code>a</code>`".data ∧
    processMarkdownText (processMarkdownText "``a``".data) =
      "<code><code>a</code></code>".data ∧
    processMarkdownText (processMarkdownText "``a``".data) ≠
      processMarkdownText "``a``".data := by
  refine ⟨by decide, by decide, by decide⟩

/-- C9 (amended): the inline formatter is not idempotent in general (doubled
backticks double-wrap, see the counterexample); it is the identity on
marker-free text, hence a second application agrees with the first whenever
the first output contains no `*`, `_`, backtick or `[` marker. -/
theorem inline_formatter_idempotent_on_marker_free (s : List Char)
    (h : noMarkers (processMarkdownText s) = true) :
    processMarkdownText (processMarkdownText s) = processMarkdownText s :=
  processMarkdownText_id (processMarkdownText s) h

/-- Witness for C9's amended theorem at the bold input `**a**`, whose
formatter output `<b>a</b>` is marker-free. -/
theorem inline_formatter_idempotent_on_marker_free_witness :
    noMarkers (processMarkdownText "**a**".data) = true ∧
    processMarkdownText (processMarkdownText "**a**".data) =
      processMarkdownText "**a**".data :=
  ⟨by decide, inline_formatter_idempotent_on_marker_free "**a**".data (by decide)⟩

/-- C4: a summary routes through the structured path exactly when its length
exceeds 500, or it has more than 2 `#` markers, more than 3 `**` markers, more
than 3 `- ` markers, or contains the two-character `\n` escape; every
501-character summary is structured, and a 500-character summary without such
markers is emitted on the plain path unchanged. -/
theorem body_routing_characterisation :
    (∀ s : List Char, isStructured s = true ↔
      (500 < s.length ∨ 2 < countSub s ['#'] ∨ 3 < countSub s ['*', '*'] ∨
        3 < countSub s ['-', ' '] ∨ containsSub s ['\\', 'n'] = true)) ∧
    (∀ s : List Char, s.length = 501 → renderBody s = structuredBody s) ∧
    (∀ s : List Char, s.length = 500 → countSub s ['#'] ≤ 2 → countSub s ['*', '*'] ≤ 3 →
      countSub s ['-', ' '] ≤ 3 → containsSub s ['\\', 'n'] = false →
      renderBody s = [.para s .summary]) := by
  refine ⟨fun s => ?_, fun s h => ?_, fun s hlen h1 h2 h3 h4 => ?_⟩
  · unfold isStructured
    simp [Bool.or_eq_true, decide_eq_true_eq, or_assoc]
  · have hs : isStructured s = true := by
      unfold isStructured
      have : 500 < s.length := by omega
      simp [this]
    unfold renderBody
    rw [if_pos hs]
  · have hs : isStructured s = false := by
      unfold isStructured
      rw [h4]
      simp only [Bool.or_false, Bool.or_eq_false_iff, decide_eq_false_iff_not, not_lt]
      omega
    have ht : truncateSummary s = s := by
      unfold truncateSummary
      rw [if_neg]
      omega
    unfold renderBody
    rw [hs, ht]
    simp

/-- Witness for C4 at a marker-free 501-character and a marker-free
500-character summary. -/
theorem body_routing_characterisation_witness :
    renderBody (List.replicate 501 'a') = structuredBody (List.replicate 501 'a') ∧
    renderBody (List.replicate 500 'a') =
      [.para (List.replicate 500 'a') .summary] := by
  have hmem : ∀ c : Char, c ≠ 'a' → c ∉ List.replicate 500 'a' := by
    intro c hc hm
    rw [List.mem_replicate] at hm
    exact hc hm.2
  constructor
  · exact body_routing_characterisation.2.1 _ (by rw [List.length_replicate])
  · refine body_routing_characterisation.2.2 _ (by rw [List.length_replicate]) ?_ ?_ ?_ ?_
    · rw [countSub_zero _ _ _ (hmem '#' (by decide))]
      omega
    · rw [countSub_zero _ _ _ (hmem '*' (by decide))]
      omega
    · rw [countSub_zero _ _ _ (hmem '-' (by decide))]
      omega
    · exact containsSub_false _ _ _ (hmem '\\' (by decide))

/-- C5: the plain-path emission truncates a summary longer than 600 characters
to its first 600 characters plus a 3-character ellipsis (603 total) and emits
shorter summaries unchanged; every summary actually routed to the plain path
(length at most 500) is therefore emitted unchanged. -/
theorem plain_path_truncation :
    (∀ s : List Char, 600 < s.length →
      truncateSummary s = s.take 600 ++ "...".data ∧ (truncateSummary s).length = 603) ∧
    (∀ s : List Char, s.length ≤ 600 → truncateSummary s = s) ∧
    (∀ s : List Char, isStructured s = false → renderBody s = [.para s .summary]) := by
  refine ⟨fun s h => ?_, fun s h => ?_, fun s h => ?_⟩
  · have ht : truncateSummary s = s.take 600 ++ "...".data := by
      unfold truncateSummary
      rw [if_pos]
      omega
    refine ⟨ht, ?_⟩
    rw [ht]
    simp only [List.length_append, List.length_take]
    have : min 600 s.length = 600 := by omega
    rw [this]
    rfl
  · unfold truncateSummary
    rw [if_neg]
    omega
  · have hlen : s.length ≤ 500 := by
      unfold isStructured at h
      simp only [Bool.or_eq_false_iff, decide_eq_false_iff_not, not_lt] at h
      exact h.1.1.1.1
    have ht : truncateSummary s = s := by
      unfold truncateSummary
      rw [if_neg]
      omega
    unfold renderBody
    rw [h, ht]
    simp

/-- Witness for C5 at a 650-character summary (truncated to 603) and at the
plain short summary `short`. -/
theorem plain_path_truncation_witness :
    truncateSummary (List.replicate 650 'a') =
      (List.replicate 650 'a').take 600 ++ "...".data ∧
    (truncateSummary (List.replicate 650 'a')).length = 603 ∧
    renderBody "short".data = [.para "short".data .summary] := by
  refine ⟨(plain_path_truncation.1 _ (by rw [List.length_replicate]; omega)).1,
    (plain_path_truncation.1 _ (by rw [List.length_replicate]; omega)).2,
    plain_path_truncation.2.2 _ (by decide)⟩

/-- C7: `generate_report` raises its precondition `ValueError` exactly when
the article list is empty, and in that case no output file is written (the
raise precedes the document construction and `doc.build`). -/
theorem empty_articles_precondition (now fn : List Char) (arts : List Article) :
    ((∃ e, generateReport now fn arts = .error e) ↔ arts = []) ∧
    (arts = [] →
      generateReport now fn arts = .error "No articles provided for PDF generation".data ∧
      writtenFiles (generateReport now fn arts) = []) := by
  by_cases harts : arts = []
  · subst harts
    refine ⟨⟨fun _ => rfl, fun _ => ⟨_, rfl⟩⟩, fun _ => ⟨rfl, rfl⟩⟩
  · constructor
    · constructor
      · intro ⟨e, he⟩
        unfold generateReport at he
        rw [if_neg harts] at he
        exact absurd he (by simp)
      · intro h
        exact absurd h harts
    · intro h
      exact absurd h harts

/-- Witness for C7 at the empty article list. -/
theorem empty_articles_precondition_witness :
    generateReport [] [] [] = .error "No articles provided for PDF generation".data ∧
    writtenFiles (generateReport [] [] ([] : List Article)) = [] :=
  (empty_articles_precondition [] [] []).2 rfl

/-- C8: the section classifier is exactly the first-match walk of the ordered
(category, keyword-set) list with `"general"` fallback, and any text whose
lower-cased stripped form contains the phrase `executive summary` (hence any
letter case and any surrounding punctuation in the original) classifies as
`executive_summary`. -/
theorem classifier_priority_order :
    (∀ t : List Char, detectSectionType t = classifyOrdered t) ∧
    (∀ t : List Char,
      containsSub (stripL (toLowerL t)) "executive summary".data = true →
      detectSectionType t = "executive_summary") := by
  constructor
  · intro t
    rfl
  · intro t h
    unfold detectSectionType
    rw [if_pos]
    unfold containsAny execKws
    simp only [List.any_cons, List.any_nil, Bool.or_eq_true]
    exact Or.inl h

/-- Witness for C8 at a mixed-case, punctuation-surrounded input. -/
theorem classifier_priority_order_witness :
    detectSectionType "!ExEcUtIvE SuMmArY:".data = "executive_summary" ∧
    detectSectionType "!ExEcUtIvE SuMmArY:".data =
      classifyOrdered "!ExEcUtIvE SuMmArY:".data :=
  ⟨classifier_priority_order.2 _ (by decide), classifier_priority_order.1 _⟩

/-- C6 (counterexample): on an input that matches no date pattern but contains
`GMT`, `_format_date` does not return the raw original input — it returns the
input with `GMT` removed and whitespace stripped. -/
theorem format_date_gmt_cex :
    formatDate "nope GMT".data = "nope".data ∧
    formatDate "nope GMT".data ≠ "nope GMT".data :=
  ⟨by decide, by decide⟩

/-- C6 (amended): when no date pattern matches, `_format_date` returns the
*pre-processed* string — the raw input unchanged when it does not contain
`GMT`, and the input with all `GMT` occurrences removed and stripped when it
does; when some pattern matches it returns the reformatted date. -/
theorem format_date_fallback (ds : List Char) :
    (containsSub ds "GMT".data = false → tryFormats ds = none → formatDate ds = ds) ∧
    (tryFormats (preprocessGMT ds) = none → formatDate ds = preprocessGMT ds) ∧
    (∀ y m d : Nat, tryFormats (preprocessGMT ds) = some (y, m, d) →
      formatDate ds = strftimeBdY y m d) := by
  refine ⟨fun hg hn => ?_, fun hn => ?_, fun y m d hs => ?_⟩
  · have hp : preprocessGMT ds = ds := by
      unfold preprocessGMT
      rw [hg]
      simp
    unfold formatDate
    rw [hp, hn]
  · unfold formatDate
    rw [hn]
  · unfold formatDate
    rw [hs]

/-- Witness for C6's amended theorem: a GMT-free non-date, a GMT-carrying
non-date, and a parseable ISO date. -/
theorem format_date_fallback_witness :
    formatDate "zzz".data = "zzz".data ∧
    formatDate "nope GMT".data = preprocessGMT "nope GMT".data ∧
    formatDate "2024-01-02".data = strftimeBdY 2024 1 2 :=
  ⟨(format_date_fallback _).1 (by decide) (by decide),
   (format_date_fallback _).2.1 (by decide),
   (format_date_fallback _).2.2 2024 1 2 (by decide)⟩

/-! ### Lemmas: the structured-path layout loop, split at headers. -/

theorem layoutLoop_noHeader (seg : List MDElement) :
    ∀ buf : List Block, (∀ e ∈ seg, isHeaderE e = false) →
    layoutLoop seg buf = segImm seg ++ flushGroup (buf ++ segCopies seg) := by
  induction seg with
  | nil =>
    intro buf _
    simp only [layoutLoop, segImm, segCopies, flushGroup, List.filterMap_nil,
      List.append_nil, List.foldr_nil, List.nil_append]
  | cons e rest ih =>
    intro buf hall
    have hrest : ∀ x ∈ rest, isHeaderE x = false :=
      fun x hx => hall x (List.mem_cons_of_mem _ hx)
    have he := hall e (List.mem_cons_self _ _)
    cases e with
    | paragraph t st =>
      by_cases ht : t = []
      · subst ht
        rw [show layoutLoop (MDElement.paragraph [] st :: rest) buf = layoutLoop rest buf by
          simp [layoutLoop]]
        rw [ih buf hrest]
        simp [segImm, immOut, segCopies, paraCopy]
      · rw [show layoutLoop (MDElement.paragraph t st :: rest) buf =
            .para t (styleForSection st) ::
              layoutLoop rest (buf ++ [.para t .longContent]) by
          simp [layoutLoop, ht]]
        rw [ih (buf ++ [Block.para t StyleName.longContent]) hrest]
        simp [segImm, immOut, segCopies, paraCopy, ht]
    | header t lvl st => simp [isHeaderE] at he
    | listItem t ind =>
      rw [show layoutLoop (MDElement.listItem t ind :: rest) buf =
          .para ("• ".data ++ t) .enhancedBulletList :: layoutLoop rest buf by
        simp [layoutLoop]]
      rw [ih buf hrest]
      simp [segImm, immOut, segCopies, paraCopy]
    | numberedList t num =>
      rw [show layoutLoop (MDElement.numberedList t num :: rest) buf =
          .para (num ++ ". ".data ++ t) .numberedList :: layoutLoop rest buf by
        simp [layoutLoop]]
      rw [ih buf hrest]
      simp [segImm, immOut, segCopies, paraCopy]
    | quote t =>
      rw [show layoutLoop (MDElement.quote t :: rest) buf =
          .para ("💬 ".data ++ t) .enhancedQuote :: layoutLoop rest buf by
        simp [layoutLoop]]
      rw [ih buf hrest]
      simp [segImm, immOut, segCopies, paraCopy]
    | hr =>
      rw [show layoutLoop (MDElement.hr :: rest) buf = hrBlocks ++ layoutLoop rest buf by
        simp [layoutLoop]]
      rw [ih buf hrest]
      simp [segImm, immOut, segCopies, paraCopy]

theorem layoutLoop_header_split (seg : List MDElement) :
    ∀ (buf : List Block) (h : MDElement) (rest : List MDElement),
      (∀ e ∈ seg, isHeaderE e = false) → isHeaderE h = true →
      layoutLoop (seg ++ h :: rest) buf =
        segImm seg ++ immOut h ++ flushGroup (buf ++ segCopies seg) ++
          layoutLoop rest [] := by
  induction seg with
  | nil =>
    intro buf h rest _ hh
    cases h with
    | header t lvl st =>
      rw [show ([] : List MDElement) ++ MDElement.header t lvl st :: rest =
          MDElement.header t lvl st :: rest by simp]
      rw [show layoutLoop (MDElement.header t lvl st :: rest) buf =
          .para t (headerStyleFor lvl) ::
            ((if buf.isEmpty then [] else [.keepTogether buf]) ++ layoutLoop rest []) by
        simp [layoutLoop]]
      simp only [segImm, immOut, segCopies, flushGroup, List.filterMap_nil,
        List.append_nil, List.foldr_nil, List.nil_append, List.cons_append,
        List.singleton_append]
    | paragraph t st => simp [isHeaderE] at hh
    | listItem t ind => simp [isHeaderE] at hh
    | numberedList t num => simp [isHeaderE] at hh
    | quote t => simp [isHeaderE] at hh
    | hr => simp [isHeaderE] at hh
  | cons e rest2 ih =>
    intro buf h rest hall hh
    have hrest2 : ∀ x ∈ rest2, isHeaderE x = false :=
      fun x hx => hall x (List.mem_cons_of_mem _ hx)
    have he := hall e (List.mem_cons_self _ _)
    cases e with
    | paragraph t st =>
      by_cases ht : t = []
      · subst ht
        rw [show (MDElement.paragraph [] st :: rest2) ++ h :: rest =
            MDElement.paragraph [] st :: (rest2 ++ h :: rest) by simp]
        rw [show layoutLoop (MDElement.paragraph [] st :: (rest2 ++ h :: rest)) buf =
            layoutLoop (rest2 ++ h :: rest) buf by simp [layoutLoop]]
        rw [ih buf h rest hrest2 hh]
        simp [segImm, immOut, segCopies, paraCopy]
      · rw [show (MDElement.paragraph t st :: rest2) ++ h :: rest =
            MDElement.paragraph t st :: (rest2 ++ h :: rest) by simp]
        rw [show layoutLoop (MDElement.paragraph t st :: (rest2 ++ h :: rest)) buf =
            .para t (styleForSection st) ::
              layoutLoop (rest2 ++ h :: rest) (buf ++ [.para t .longContent]) by
          simp [layoutLoop, ht]]
        rw [ih (buf ++ [Block.para t StyleName.longContent]) h rest hrest2 hh]
        simp [segImm, immOut, segCopies, paraCopy, ht]
    | header t lvl st => simp [isHeaderE] at he
    | listItem t ind =>
      rw [show (MDElement.listItem t ind :: rest2) ++ h :: rest =
          MDElement.listItem t ind :: (rest2 ++ h :: rest) by simp]
      rw [show layoutLoop (MDElement.listItem t ind :: (rest2 ++ h :: rest)) buf =
          .para ("• ".data ++ t) .enhancedBulletList ::
            layoutLoop (rest2 ++ h :: rest) buf by simp [layoutLoop]]
      rw [ih buf h rest hrest2 hh]
      simp [segImm, immOut, segCopies, paraCopy]
    | numberedList t num =>
      rw [show (MDElement.numberedList t num :: rest2) ++ h :: rest =
          MDElement.numberedList t num :: (rest2 ++ h :: rest) by simp]
      rw [show layoutLoop (MDElement.numberedList t num :: (rest2 ++ h :: rest)) buf =
          .para (num ++ ". ".data ++ t) .numberedList ::
            layoutLoop (rest2 ++ h :: rest) buf by simp [layoutLoop]]
      rw [ih buf h rest hrest2 hh]
      simp [segImm, immOut, segCopies, paraCopy]
    | quote t =>
      rw [show (MDElement.quote t :: rest2) ++ h :: rest =
          MDElement.quote t :: (rest2 ++ h :: rest) by simp]
      rw [show layoutLoop (MDElement.quote t :: (rest2 ++ h :: rest)) buf =
          .para ("💬 ".data ++ t) .enhancedQuote ::
            layoutLoop (rest2 ++ h :: rest) buf by simp [layoutLoop]]
      rw [ih buf h rest hrest2 hh]
      simp [segImm, immOut, segCopies, paraCopy]
    | hr =>
      rw [show (MDElement.hr :: rest2) ++ h :: rest =
          MDElement.hr :: (rest2 ++ h :: rest) by simp]
      rw [show layoutLoop (MDElement.hr :: (rest2 ++ h :: rest)) buf =
          hrBlocks ++ layoutLoop (rest2 ++ h :: rest) buf by simp [layoutLoop]]
      rw [ih buf h rest hrest2 hh]
      simp [segImm, immOut, segCopies, paraCopy]

theorem splitSegs_assemble (elems : List MDElement) :
    (splitSegs elems).1.foldr (fun p acc => p.1 ++ p.2 :: acc) (splitSegs elems).2 =
      elems := by
  induction elems with
  | nil => rfl
  | cons e rest ih =>
    rcases hs : splitSegs rest with ⟨segs, last⟩
    rw [hs] at ih
    cases segs with
    | nil =>
      by_cases he : isHeaderE e = true
      · simp only [splitSegs, hs, he, if_pos]
        simp only [List.foldr_cons, List.foldr_nil] at ih ⊢
        simp [ih]
      · simp only [splitSegs, hs]
        rw [if_neg he]
        simp only [List.foldr_nil] at ih ⊢
        simp [ih]
    | cons p tl =>
      rcases p with ⟨s1, h1⟩
      by_cases he : isHeaderE e = true
      · simp only [splitSegs, hs, he, if_pos]
        simp only [List.foldr_cons] at ih ⊢
        simp [ih]
      · simp only [splitSegs, hs]
        rw [if_neg he]
        simp only [List.foldr_cons] at ih ⊢
        simp [← ih]

theorem splitSegs_wf (elems : List MDElement) :
    (∀ p ∈ (splitSegs elems).1,
      (∀ x ∈ p.1, isHeaderE x = false) ∧ isHeaderE p.2 = true) ∧
    (∀ x ∈ (splitSegs elems).2, isHeaderE x = false) := by
  induction elems with
  | nil => exact ⟨fun p hp => absurd hp (by simp [splitSegs]), fun x hx => absurd hx (by simp [splitSegs])⟩
  | cons e rest ih =>
    rcases hs : splitSegs rest with ⟨segs, last⟩
    rw [hs] at ih
    cases segs with
    | nil =>
      by_cases he : isHeaderE e = true
      · constructor
        · intro p hp
          simp only [splitSegs, hs, he, if_pos, List.mem_singleton] at hp
          subst hp
          exact ⟨fun x hx => absurd hx (by simp), he⟩
        · intro x hx
          simp only [splitSegs, hs, he, if_pos] at hx
          exact ih.2 x hx
      · constructor
        · intro p hp
          simp only [splitSegs, hs] at hp
          rw [if_neg he] at hp
          exact absurd hp (by simp)
        · intro x hx
          simp only [splitSegs, hs] at hx
          rw [if_neg he] at hx
          simp only [List.mem_cons] at hx
          rcases hx with hx | hx
          · subst hx
            exact Bool.not_eq_true _ ▸ Bool.eq_false_iff.mpr he
          · exact ih.2 x hx
    | cons p0 tl =>
      rcases p0 with ⟨s1, h1⟩
      by_cases he : isHeaderE e = true
      · constructor
        · intro p hp
          simp only [splitSegs, hs, he, if_pos, List.mem_cons] at hp
          rcases hp with hp | hp
          · subst hp
            exact ⟨fun x hx => absurd hx (by simp), he⟩
          · exact ih.1 p (show p ∈ (s1, h1) :: tl from List.mem_cons.mpr hp)
        · intro x hx
          simp only [splitSegs, hs, he, if_pos] at hx
          exact ih.2 x hx
      · constructor
        · intro p hp
          simp only [splitSegs, hs] at hp
          rw [if_neg he] at hp
          simp only [List.mem_cons] at hp
          rcases hp with hp | hp
          · subst hp
            have hfirst := ih.1 (s1, h1) (List.mem_cons_self _ _)
            refine ⟨fun x hx => ?_, hfirst.2⟩
            simp only [List.mem_cons] at hx
            rcases hx with hx | hx
            · subst hx
              exact Bool.not_eq_true _ ▸ Bool.eq_false_iff.mpr he
            · exact hfirst.1 x hx
          · exact ih.1 p (List.mem_cons_of_mem _ hp)
        · intro x hx
          simp only [splitSegs, hs] at hx
          rw [if_neg he] at hx
          exact ih.2 x hx

theorem layoutLoop_segs :
    ∀ (segs : List (List MDElement × MDElement)) (last : List MDElement),
      (∀ p ∈ segs, (∀ x ∈ p.1, isHeaderE x = false) ∧ isHeaderE p.2 = true) →
      (∀ x ∈ last, isHeaderE x = false) →
      layoutLoop (segs.foldr (fun p acc => p.1 ++ p.2 :: acc) last) [] =
        segs.foldr
          (fun p acc => segImm p.1 ++ immOut p.2 ++ flushGroup (segCopies p.1) ++ acc)
          (segImm last ++ flushGroup (segCopies last)) := by
  intro segs
  induction segs with
  | nil =>
    intro last _ hl
    simp only [List.foldr_nil]
    have := layoutLoop_noHeader last [] hl
    simpa using this
  | cons p ps ih =>
    intro last hsegs hl
    have hp := hsegs p (List.mem_cons_self _ _)
    have hps : ∀ q ∈ ps, (∀ x ∈ q.1, isHeaderE x = false) ∧ isHeaderE q.2 = true :=
      fun q hq => hsegs q (List.mem_cons_of_mem _ hq)
    simp only [List.foldr_cons]
    rw [layoutLoop_header_split p.1 [] p.2
      (ps.foldr (fun p acc => p.1 ++ p.2 :: acc) last) hp.1 hp.2]
    rw [ih last hps hl]
    simp [flushGroup]

/-- C10: the structured-path layout is exactly the claim-shaped rendering: the
element list splits into header-delimited segments; every non-header element
is emitted once in place; every non-empty paragraph is additionally copied
(in long-content style) into the keep-together group flushed right after the
next header block, or at the very end; headers, list items, numbered items,
quotes and rules are never members of any keep-together group. -/
theorem structured_layout_grouping (elems : List MDElement) :
    layoutElements elems = specSectionGrouping elems := by
  have h1 := splitSegs_assemble elems
  have h2 := splitSegs_wf elems
  unfold layoutElements specSectionGrouping
  conv_lhs => rw [← h1]
  exact layoutLoop_segs (splitSegs elems).1 (splitSegs elems).2 h2.1 h2.2

/-- C1 (counterexample): the keep-together group of the buffered section is
emitted *after* the header block, not before it as the claim states — on a
paragraph followed by a header, the story is [paragraph, header, group]. -/
theorem section_flush_after_header_cex :
    layoutElements [.paragraph ['a'] "objective", .header ['h'] 1 "general"] =
      [.para ['a'] .objective, .para ['h'] .title,
        .keepTogether [.para ['a'] .longContent]] ∧
    (layoutElements [.paragraph ['a'] "objective",
        .header ['h'] 1 "general"]).map blockIsKeep ≠ [false, true, false] :=
  ⟨rfl, by decide⟩

/-- C1 (amended): whenever a header is encountered, the buffered keep-together
group of the preceding non-header blocks is emitted immediately *after* the
header block is appended (not before it); a trailing buffered section is
flushed as a keep-together group after the last element. -/
theorem section_flush_order (seg : List MDElement) (buf : List Block)
    (h : MDElement) (rest : List MDElement)
    (hseg : ∀ e ∈ seg, isHeaderE e = false) (hh : isHeaderE h = true) :
    layoutLoop (seg ++ h :: rest) buf =
      segImm seg ++ immOut h ++ flushGroup (buf ++ segCopies seg) ++
        layoutLoop rest [] ∧
    layoutLoop seg buf = segImm seg ++ flushGroup (buf ++ segCopies seg) :=
  ⟨layoutLoop_header_split seg buf h rest hseg hh, layoutLoop_noHeader seg buf hseg⟩

/-- Witness for C1's amended theorem at one buffered paragraph and one header. -/
theorem section_flush_order_witness :
    layoutLoop ([MDElement.paragraph ['a'] "objective"] ++
        MDElement.header ['h'] 1 "general" :: []) [] =
      segImm [MDElement.paragraph ['a'] "objective"] ++
        immOut (MDElement.header ['h'] 1 "general") ++
        flushGroup ([] ++ segCopies [MDElement.paragraph ['a'] "objective"]) ++
        layoutLoop [] [] ∧
    layoutLoop [MDElement.paragraph ['a'] "objective"] [] =
      segImm [MDElement.paragraph ['a'] "objective"] ++
        flushGroup ([] ++ segCopies [MDElement.paragraph ['a'] "objective"]) :=
  section_flush_order [MDElement.paragraph ['a'] "objective"] []
    (MDElement.header ['h'] 1 "general") [] (by decide) (by decide)

/-! ### Lemmas: parsing a pure header line. -/

theorem replaceAllGo_id (c0 : Char) (p rep : List Char) :
    ∀ (fuel : Nat) (l : List Char), c0 ∉ l → replaceAllGo (c0 :: p) rep fuel l = l := by
  intro fuel
  induction fuel with
  | zero => intro l _; cases l <;> rfl
  | succ n ih =>
    intro l h
    cases l with
    | nil => rfl
    | cons c rest =>
      rw [replaceAllGo, if_neg]
      · rw [ih rest (fun hm => h (List.mem_cons_of_mem _ hm))]
      · intro hcon
        have h2 := hcon.2
        rw [isPrefixOf_eq_false_of_head_not_mem c0 p _ h] at h2
        exact Bool.false_ne_true h2

theorem replaceAll_id (c0 : Char) (p rep l : List Char) (h : c0 ∉ l) :
    replaceAll (c0 :: p) rep l = l := replaceAllGo_id c0 p rep l.length l h

theorem splitOnChar_not_mem (sep : Char) :
    ∀ l : List Char, sep ∉ l → splitOnChar sep l = [l] := by
  intro l
  induction l with
  | nil => intro _; rfl
  | cons c rest ih =>
    intro h
    have hc : ¬(c = sep) := fun hc => h (hc ▸ List.mem_cons_self c rest)
    rw [splitOnChar, ih (fun hm => h (List.mem_cons_of_mem _ hm))]
    simp [hc]

theorem rstripL_last_not_ws (l : List Char) (c : Char) (hc : pyWs c = false) :
    rstripL (l ++ [c]) = l ++ [c] := by
  unfold rstripL
  rw [List.reverse_append]
  simp only [List.reverse_cons, List.reverse_nil, List.nil_append, List.singleton_append,
    List.dropWhile_cons]
  rw [hc]
  simp

theorem lstripL_head_not_ws (c : Char) (l : List Char) (hc : pyWs c = false) :
    lstripL (c :: l) = c :: l := by
  unfold lstripL
  rw [List.dropWhile_cons]
  rw [hc]
  simp

theorem stripL_header_line (k : Nat) :
    stripL (List.replicate (k + 1) '#' ++ [' ', 'X']) =
      List.replicate (k + 1) '#' ++ [' ', 'X'] := by
  have h1 : List.replicate (k + 1) '#' ++ [' ', 'X'] =
      (List.replicate (k + 1) '#' ++ [' ']) ++ ['X'] := by simp
  have h2 : List.replicate (k + 1) '#' ++ [' ', 'X'] =
      '#' :: (List.replicate k '#' ++ [' ', 'X']) := by
    rw [List.replicate_succ, List.cons_append]
  unfold stripL
  rw [h1, rstripL_last_not_ws _ 'X' (by decide), ← h1, h2,
    lstripL_head_not_ws '#' _ (by decide)]

theorem takeWhile_hash (n : Nat) (rest : List Char) :
    (List.replicate n '#' ++ ' ' :: rest).takeWhile (fun c => c = '#') =
      List.replicate n '#' := by
  induction n with
  | zero =>
    simp only [List.replicate, List.nil_append, List.takeWhile_cons]
    simp
  | succ k ih =>
    rw [List.replicate_succ, List.cons_append, List.takeWhile_cons]
    simp [ih]

theorem headerLevel_hash (n : Nat) (rest : List Char) :
    headerLevel (List.replicate n '#' ++ ' ' :: rest) = n := by
  unfold headerLevel
  rw [takeWhile_hash]
  exact List.length_replicate n '#'

theorem drop_replicate (n : Nat) (c : Char) (rest : List Char) :
    (List.replicate n c ++ rest).drop n = rest := by
  have := List.drop_left (List.replicate n c) rest
  rwa [List.length_replicate] at this

theorem parse_pure_header (k : Nat) :
    parseMarkdownEnhanced (List.replicate (k + 1) '#' ++ [' ', 'X']) =
      [.header ['X'] (k + 1) "general"] := by
  have hcons : List.replicate (k + 1) '#' ++ [' ', 'X'] =
      '#' :: (List.replicate k '#' ++ [' ', 'X']) := by
    rw [List.replicate_succ, List.cons_append]
  have hne : List.replicate (k + 1) '#' ++ [' ', 'X'] ≠ [] := by
    rw [hcons]; exact List.cons_ne_nil _ _
  have hmem : ∀ c : Char, c ≠ '#' → c ≠ ' ' → c ≠ 'X' →
      c ∉ List.replicate (k + 1) '#' ++ [' ', 'X'] := by
    intro c h1 h2 h3 hm
    rcases List.mem_append.mp hm with hm | hm
    · rw [List.mem_replicate] at hm; exact h1 hm.2
    · simp only [List.mem_cons, List.not_mem_nil, or_false] at hm
      rcases hm with hm | hm
      · exact h2 hm
      · exact h3 hm
  have hstrip := stripL_header_line k
  unfold parseMarkdownEnhanced
  rw [if_neg hne,
    replaceAll_id '\\' ['n'] ['\n'] _ (hmem '\\' (by decide) (by decide) (by decide)),
    replaceAll_id '\\' ['t'] ['\t'] _ (hmem '\\' (by decide) (by decide) (by decide)),
    splitOnChar_not_mem '\n' _ (hmem '\n' (by decide) (by decide) (by decide))]
  rw [parseLoop]
  rw [hstrip]
  rw [if_neg hne]
  rw [if_pos (show (List.replicate (k + 1) '#' ++ [' ', 'X']).head? = some '#' by
    rw [hcons]; rfl)]
  have hlvl : headerLevel (List.replicate (k + 1) '#' ++ [' ', 'X']) = k + 1 :=
    headerLevel_hash (k + 1) ['X']
  rw [hlvl, drop_replicate]
  have h1 : stripL [' ', 'X'] = ['X'] := by decide
  rw [h1]
  have h2 : detectSectionType ['X'] = "general" := by decide
  rw [h2]
  rfl

/-- C3 (counterexample): a five-marker header tokenizes to level 5 — the
tokenizer does not clamp the level to the deepest defined style (4). -/
theorem header_level_unclamped_cex :
    parseMarkdownEnhanced "##### X".data = [.header ['X'] 5 "general"] ∧
    [MDElement.header ['X'] 5 "general"] ≠ [MDElement.header ['X'] 4 "general"] :=
  ⟨by decide, by decide⟩

/-- C3 (amended): for every n ≥ 1 the tokenizer yields a Header with text `X`
and level exactly n (the raw marker count, not clamped); the clamping happens
only at layout time, where every level ≥ 4 renders with the deepest header
style `h4`, levels 1–3 with their own styles. -/
theorem header_level_unclamped :
    (∀ n : Nat, 1 ≤ n →
      parseMarkdownEnhanced (List.replicate n '#' ++ [' ', 'X']) =
        [.header ['X'] n "general"]) ∧
    (∀ n : Nat, 4 ≤ n → headerStyleFor n = .h4) ∧
    headerStyleFor 1 = .title ∧ headerStyleFor 2 = .proposalH2 ∧
    headerStyleFor 3 = .proposalH3 := by
  refine ⟨fun n hn => ?_, fun n hn => ?_, rfl, rfl, rfl⟩
  · rcases n with _ | k
    · omega
    · exact parse_pure_header k
  · unfold headerStyleFor
    rw [if_neg (by omega), if_neg (by omega), if_neg (by omega)]

/-- Witness for C3's amended theorem at n = 5. -/
theorem header_level_unclamped_witness :
    parseMarkdownEnhanced (List.replicate 5 '#' ++ [' ', 'X']) =
      [.header ['X'] 5 "general"] ∧ headerStyleFor 5 = .h4 :=
  ⟨header_level_unclamped.1 5 (by omega), header_level_unclamped.2.1 5 (by omega)⟩

theorem tocEntriesLoop_eq_filterMap (elems : List MDElement) :
    tocEntriesLoop elems = elems.filterMap headerTocEntry := by
  induction elems with
  | nil => rfl
  | cons e rest ih =>
    cases e <;> simp [tocEntriesLoop, headerTocEntry, List.filterMap_cons, ih]

theorem tocEntries_length (elems : List MDElement) :
    (elems.filterMap headerTocEntry).length = (elems.filter isHeaderE).length := by
  induction elems with
  | nil => rfl
  | cons e rest ih =>
    cases e <;> simp [headerTocEntry, isHeaderE, List.filterMap_cons, List.filter_cons, ih]

/-- C2: for a structured-path summary, when the tokenized element count
exceeds 10 the article is rendered as metadata (title, date, link), then the
TOC block — its title, one entry per header element (obtained by mapping the
per-header entry over the element list), a spacer and a forced page break —
and then, immediately after the page break, the article's content blocks;
with 10 or fewer elements no TOC block is emitted.  The entry count equals the
header count. -/
theorem toc_position_and_threshold (a : Article)
    (hs : isStructured a.summary = true) :
    ((parseMarkdownEnhanced a.summary).length > 10 →
      renderArticle a =
        articleMeta a ++
          ([.para "📋 Table of Contents".data .reportTitle, .spacer 1 15] ++
            (parseMarkdownEnhanced a.summary).filterMap headerTocEntry ++
            [.spacer 1 20, .pageBreak]) ++
          layoutElements (parseMarkdownEnhanced a.summary) ++ [.spacer 1 15]) ∧
    ((parseMarkdownEnhanced a.summary).length ≤ 10 →
      renderArticle a =
        articleMeta a ++ layoutElements (parseMarkdownEnhanced a.summary) ++
          [.spacer 1 15]) ∧
    ((parseMarkdownEnhanced a.summary).filterMap headerTocEntry).length =
      ((parseMarkdownEnhanced a.summary).filter isHeaderE).length := by
  refine ⟨fun h10 => ?_, fun h10 => ?_, tocEntries_length _⟩
  · unfold renderArticle renderBody structuredBody
    rw [hs]
    rw [if_pos rfl, if_pos h10]
    unfold tocElements
    rw [tocEntriesLoop_eq_filterMap]
    simp [List.append_assoc]
  · unfold renderArticle renderBody structuredBody
    rw [hs]
    rw [if_pos rfl, if_neg (by omega)]
    simp

/-- Witness for C2 at an article whose summary tokenizes to 11 header
elements. -/
theorem toc_position_and_threshold_witness :
    isStructured
      "# A\n\n# B\n\n# C\n\n# D\n\n# E\n\n# F\n\n# G\n\n# H\n\n# I\n\n# J\n\n# K".data = true ∧
    (parseMarkdownEnhanced
      "# A\n\n# B\n\n# C\n\n# D\n\n# E\n\n# F\n\n# G\n\n# H\n\n# I\n\n# J\n\n# K".data).length > 10 ∧
    renderArticle
      ⟨"src".data, "ttl".data, "lnk".data, "dt".data,
        "# A\n\n# B\n\n# C\n\n# D\n\n# E\n\n# F\n\n# G\n\n# H\n\n# I\n\n# J\n\n# K".data⟩ =
      articleMeta
        ⟨"src".data, "ttl".data, "lnk".data, "dt".data,
          "# A\n\n# B\n\n# C\n\n# D\n\n# E\n\n# F\n\n# G\n\n# H\n\n# I\n\n# J\n\n# K".data⟩ ++
        ([.para "📋 Table of Contents".data .reportTitle, .spacer 1 15] ++
          (parseMarkdownEnhanced
            "# A\n\n# B\n\n# C\n\n# D\n\n# E\n\n# F\n\n# G\n\n# H\n\n# I\n\n# J\n\n# K".data).filterMap
            headerTocEntry ++
          [.spacer 1 20, .pageBreak]) ++
        layoutElements
          (parseMarkdownEnhanced
            "# A\n\n# B\n\n# C\n\n# D\n\n# E\n\n# F\n\n# G\n\n# H\n\n# I\n\n# J\n\n# K".data) ++
        [.spacer 1 15] :=
  ⟨by decide, by decide, (toc_position_and_threshold _ (by decide)).1 (by decide)⟩
